import Mathlib

/-!
Shallow embedding of the robots.txt interpreter in src/kirby-core/robotstxt.rs.

Rust strings are modelled as lists of characters (`Str`); wherever the Rust
code uses the byte length of a string (`str::len`), the model uses `utf8Len`,
the sum of the UTF-8 sizes of the characters.  Fallible operations that can
panic in Rust (the byte-indexed slice in `strip_prefix`, the `unwrap` in
`get_agent_rules`) are modelled in the `Except Unit` monad, with `.error ()`
standing for a panic.

The Rust `rules` field is a `std::collections::HashMap`.  A hash map has no
observable order except through `keys()` iteration, whose order is
unspecified (randomized per map instance with the default hasher); the model
keeps the map as an association list in first-insertion order, and exposes
the iteration order used to build `agents_ordered` as an explicit parameter
of `RobotsTxt.parseWithKeys`.  `RobotsTxt.parse` fixes the insertion order
as one canonical choice of that parameter.
-/

abbrev Str := List Char

deriving instance DecidableEq for Except

/-- Sum of the UTF-8 byte sizes of the characters: the Rust `str::len`. -/
def utf8Len : Str → Nat
  | [] => 0
  | c :: cs => c.utf8Size + utf8Len cs

/-- ASCII lowercasing of a single character, as Rust `u8::to_ascii_lowercase`
applied byte-wise (only `A`..`Z` are folded; all other characters, in
particular every non-ASCII character, are left unchanged). -/
def asciiLower (c : Char) : Char :=
  if 'A' ≤ c ∧ c ≤ 'Z' then Char.ofNat (c.toNat + 32) else c

/-- Rust `str::eq_ignore_ascii_case`.  Rust compares byte-wise; comparing
character-wise is equivalent because two equal-byte-length strings have equal
characters iff they have equal bytes, and an ASCII byte never equals a byte
of a multi-byte character even after ASCII folding. -/
def eqIgnoreAsciiCase : Str → Str → Bool
  | [], [] => true
  | a :: as, b :: bs =>
    if asciiLower a = asciiLower b then eqIgnoreAsciiCase as bs else false
  | _, _ => false

/-- Split a string at the byte offset `n`, as the Rust slice `s[..n]` /
`s[n..]` pair: `none` when `n` is not on a character boundary (the case in
which the Rust slice panics) or past the end. -/
def splitAtByte : Str → Nat → Option (Str × Str)
  | s, 0 => some ([], s)
  | [], _ + 1 => none
  | c :: cs, n + 1 =>
    if c.utf8Size ≤ n + 1 then
      match splitAtByte cs (n + 1 - c.utf8Size) with
      | some (a, b) => some (c :: a, b)
      | none => none
    else none

/-- The source function `strip_prefix`: strips `pre` from the front of `s`
ignoring ASCII case.  The Rust code checks `s.len() < prefix.len()` and then
takes the byte slice `s[..prefix.len()]`, which panics when that byte index
is not a character boundary; the panic is modelled as `.error ()`. -/
def stripPfx (s pre : Str) : Except Unit (Option Str) :=
  if utf8Len s < utf8Len pre then .ok none
  else
    match splitAtByte s (utf8Len pre) with
    | none => .error ()
    | some (head, rest) =>
      if eqIgnoreAsciiCase head pre then .ok (some rest) else .ok none

/-- The Unicode White_Space property, the predicate behind Rust
`char::is_whitespace` (used by `str::trim`). -/
def isRustWhitespace (c : Char) : Bool :=
  [0x9, 0xA, 0xB, 0xC, 0xD, 0x20, 0x85, 0xA0, 0x1680,
   0x2000, 0x2001, 0x2002, 0x2003, 0x2004, 0x2005, 0x2006, 0x2007,
   0x2008, 0x2009, 0x200A, 0x2028, 0x2029, 0x202F, 0x205F, 0x3000].contains c.toNat

/-- Rust `str::trim`: drop Unicode whitespace from both ends. -/
def trim (s : Str) : Str :=
  ((s.dropWhile isRustWhitespace).reverse.dropWhile isRustWhitespace).reverse

/-- Rust `str::split_inclusive('\n')`: the pieces of the string after each
newline, each piece keeping its terminating newline; the empty string has no
pieces, and a last piece without a newline is kept. -/
def splitInclNl : Str → List Str
  | [] => []
  | '\n' :: cs => ['\n'] :: splitInclNl cs
  | c :: cs =>
    match splitInclNl cs with
    | [] => [[c]]
    | p :: ps => (c :: p) :: ps

/-- One line from a `split_inclusive` piece, as in Rust `str::lines`: strip
a trailing newline and, only when a newline was stripped, also one trailing
carriage return. -/
def lineOfPiece (p : Str) : Str :=
  if p.getLast? = some '\n' then
    if p.dropLast.getLast? = some '\r' then p.dropLast.dropLast else p.dropLast
  else p

/-- Rust `str::lines`, as used by `RobotsTxt::parse` to scan the input. -/
def linesOf (file : Str) : List Str := (splitInclNl file).map lineOfPiece

/-- The inner recursion `match_recursive` of the source `match_pattern`:
a classic backtracking wildcard match where `*` matches any characters
(zero or more, `/` included) and the base case requires both strings to be
exhausted simultaneously. -/
def match_recursive : Str → Str → Bool
  | [], [] => true
  | [], _ :: _ => false
  | pc :: p, [] => if pc = '*' then match_recursive p [] else false
  | pc :: p, sc :: s =>
    if pc = '*' then match_recursive p (sc :: s) || match_recursive (pc :: p) s
    else if pc = sc then match_recursive p s else false
termination_by p s => p.length + s.length

/-- The source function `match_pattern`: a pattern without `*` matches iff
it is a literal prefix of the candidate (fast path); otherwise the
backtracking recursion decides. -/
def match_pattern (pattern s : Str) : Bool :=
  if (!pattern.contains '*') && pattern.isPrefixOf s then true
  else match_recursive pattern s

/-- Fuel-indexed evaluator for `match_recursive`; proven to agree with it
for sufficient fuel, it makes concrete matches kernel-computable. -/
def matchFuel : Nat → Str → Str → Bool
  | 0, _, _ => false
  | _ + 1, [], [] => true
  | _ + 1, [], _ :: _ => false
  | n + 1, pc :: p, [] => if pc = '*' then matchFuel n p [] else false
  | n + 1, pc :: p, sc :: s =>
    if pc = '*' then matchFuel n p (sc :: s) || matchFuel n (pc :: p) s
    else if pc = sc then matchFuel n p s else false

/-- Computable form of `match_pattern` (see `match_pattern_eq_fueled`). -/
def match_patternC (pattern s : Str) : Bool :=
  if (!pattern.contains '*') && pattern.isPrefixOf s then true
  else matchFuel (pattern.length + s.length + 1) pattern s

/-- The source struct `RobotsTxtRule`: one agent's allow and disallow
path-pattern lists. -/
structure RobotsTxtRule where
  allow : List Str
  disallow : List Str
  deriving DecidableEq

/-- The Rust `Default` for `RobotsTxtRule`: two empty vectors. -/
def emptyRule : RobotsTxtRule := { allow := [], disallow := [] }

/-- The source method `RobotsTxtRule::is_allowed`: take the first matching
allow and disallow entries and resolve via the decision table, ties by byte
length going to disallow (strict `>`). -/
def RobotsTxtRule.is_allowed (r : RobotsTxtRule) (path : Str) : Bool :=
  match r.allow.find? (fun pattern => match_pattern pattern path),
        r.disallow.find? (fun pattern => match_pattern pattern path) with
  | some _, none => true
  | none, some _ => false
  | some allow, some disallow => decide (utf8Len disallow < utf8Len allow)
  | none, none => true

/-- Association-list lookup, modelling `HashMap::get`. -/
def lookupRule : List (Str × RobotsTxtRule) → Str → Option RobotsTxtRule
  | [], _ => none
  | (k, r) :: rest, a => if k = a then some r else lookupRule rest a

/-- Modelling `rules.entry(agent).or_insert(Default::default())` followed by
a mutation `f` of the entry: update in place if the key is present, append a
fresh entry otherwise (insertion order of the association list is the
first-insertion order of the map). -/
def updateRule (rules : List (Str × RobotsTxtRule)) (agent : Str)
    (f : RobotsTxtRule → RobotsTxtRule) : List (Str × RobotsTxtRule) :=
  match rules with
  | [] => [(agent, f emptyRule)]
  | (k, r) :: rest =>
    if k = agent then (k, f r) :: rest else (k, r) :: updateRule rest agent f

/-- Vec::push of a pattern onto the allow list. -/
def pushAllow (v : Str) (r : RobotsTxtRule) : RobotsTxtRule :=
  { r with allow := r.allow ++ [v] }

/-- Vec::push of a pattern onto the disallow list. -/
def pushDisallow (v : Str) (r : RobotsTxtRule) : RobotsTxtRule :=
  { r with disallow := r.disallow ++ [v] }

/-- The mutable state of the parse loop in `RobotsTxt::parse`. -/
structure ParseState where
  current_agent : Option Str
  rules : List (Str × RobotsTxtRule)
  sitemaps : List Str
  deriving DecidableEq

/-- The state at the top of `RobotsTxt::parse`. -/
def initState : ParseState := { current_agent := none, rules := [], sitemaps := [] }

/-- The four directive prefixes recognized by the parser. -/
def uaKey : Str := "user-agent: ".data

/-- Prefix of the allow directive. -/
def allowKey : Str := "allow: ".data

/-- Prefix of the disallow directive. -/
def disallowKey : Str := "disallow: ".data

/-- Prefix of the sitemap directive. -/
def sitemapKey : Str := "sitemap: ".data

/-- The body of the `for line in file.lines()` loop of `RobotsTxt::parse`:
trim, skip blank and `#` lines, then try the four directive prefixes in
order, ignoring anything else. -/
def processLine (st : ParseState) (rawLine : Str) : Except Unit ParseState :=
  let line := trim rawLine
  if line = [] ∨ line.head? = some '#' then .ok st else
  match stripPfx line uaKey with
  | .error e => .error e
  | .ok (some agent) => .ok { st with current_agent := some (trim agent) }
  | .ok none =>
  match stripPfx line allowKey with
  | .error e => .error e
  | .ok (some v) =>
    match st.current_agent with
    | none => .ok st
    | some agent =>
      if trim v = [] then .ok st
      else .ok { st with rules := updateRule st.rules agent (pushAllow (trim v)) }
  | .ok none =>
  match stripPfx line disallowKey with
  | .error e => .error e
  | .ok (some v) =>
    match st.current_agent with
    | none => .ok st
    | some agent =>
      if trim v = [] then .ok st
      else .ok { st with rules := updateRule st.rules agent (pushDisallow (trim v)) }
  | .ok none =>
  match stripPfx line sitemapKey with
  | .error e => .error e
  | .ok (some v) =>
    if trim v = [] then .ok st
    else .ok { st with sitemaps := st.sitemaps ++ [trim v] }
  | .ok none => .ok st

/-- The full parse loop over the lines of the file. -/
def processLines (st : ParseState) : List Str → Except Unit ParseState
  | [] => .ok st
  | l :: ls =>
    match processLine st l with
    | .error e => .error e
    | .ok st1 => processLines st1 ls

/-- Stable insertion of a string into a list sorted by descending byte
length: the new element goes in front of every element of equal or smaller
length it meets, behind every strictly longer one. -/
def insertLenDesc (x : Str) : List Str → List Str
  | [] => [x]
  | y :: ys => if utf8Len y ≤ utf8Len x then x :: y :: ys else y :: insertLenDesc x ys

/-- Stable sort by descending byte length, modelling
`sort_by(|a, b| b.len().cmp(&a.len()))` (Rust `sort_by` is a stable sort;
any stable sort for the same comparator computes the same list, and this
insertion sort is kernel-computable). -/
def sortLenDesc (l : List Str) : List Str := l.foldr insertLenDesc []

/-- The post-scan sorting of one agent's rule lists (lines 94-97 of the
source). -/
def sortRule (r : RobotsTxtRule) : RobotsTxtRule :=
  { allow := sortLenDesc r.allow, disallow := sortLenDesc r.disallow }

/-- The source struct `RobotsTxt`. -/
structure RobotsTxt where
  rules : List (Str × RobotsTxtRule)
  sitemaps : List Str
  agents_ordered : List Str
  deriving DecidableEq

/-- Assembling the `RobotsTxt` from the final parse state: each rule list is
length-sorted, and `agents_ordered` is the length-sorted image of the key
enumeration `keyOrder` handed in by the caller (the order `rules.keys()`
yields the keys of the hash map, which Rust leaves unspecified). -/
def RobotsTxt.build (st : ParseState) (keyOrder : List Str) : RobotsTxt :=
  { rules := st.rules.map (fun p => (p.1, sortRule p.2)),
    sitemaps := st.sitemaps,
    agents_ordered := sortLenDesc keyOrder }

/-- The source `RobotsTxt::parse` with the hash-map key-iteration order made
explicit. -/
def RobotsTxt.parseWithKeys (file : Str) (keyOrder : List Str) : Except Unit RobotsTxt :=
  match processLines initState (linesOf file) with
  | .error e => .error e
  | .ok st => .ok (RobotsTxt.build st keyOrder)

/-- The source `RobotsTxt::parse`, with first-insertion order as the
canonical choice of key-iteration order. -/
def RobotsTxt.parse (file : Str) : Except Unit RobotsTxt :=
  match processLines initState (linesOf file) with
  | .error e => .error e
  | .ok st => .ok (RobotsTxt.build st (st.rules.map Prod.fst))

/-- The source `RobotsTxt::find_matching_agent`: first entry of the
length-sorted agent index whose pattern matches the user agent. -/
def RobotsTxt.find_matching_agent (t : RobotsTxt) (user_agent : Str) : Option Str :=
  t.agents_ordered.find? (fun pattern => match_pattern pattern user_agent)

/-- The source `RobotsTxt::get_agent_rules`; the `unwrap` on the map lookup
is modelled as `.error ()` when the pattern is not a key. -/
def RobotsTxt.get_agent_rules (t : RobotsTxt) (user_agent : Str) :
    Except Unit (Option RobotsTxtRule) :=
  match t.find_matching_agent user_agent with
  | none => .ok none
  | some pattern =>
    match lookupRule t.rules pattern with
    | some r => .ok (some r)
    | none => .error ()

/-- The source `RobotsTxt::is_allowed`: allowed by default when no agent
block matches, otherwise decided by the matching block's rules. -/
def RobotsTxt.is_allowed (t : RobotsTxt) (user_agent path : Str) : Except Unit Bool :=
  match t.get_agent_rules user_agent with
  | .error e => .error e
  | .ok none => .ok true
  | .ok (some rules) => .ok (rules.is_allowed path)

/-- Whether a raw line is recognized as a `User-agent` directive by the
parser (used to state claims about inputs with no such lines). -/
def isUADirective (rawLine : Str) : Bool :=
  match stripPfx (trim rawLine) uaKey with
  | .ok (some _) => true
  | _ => false

/-- Projection of one loop iteration onto the sitemap list alone: same
trimming, skipping and directive cascade as `processLine`, but only the
sitemap accumulation is recorded. -/
def sitemapStep (acc : List Str) (rawLine : Str) : Except Unit (List Str) :=
  let line := trim rawLine
  if line = [] ∨ line.head? = some '#' then .ok acc else
  match stripPfx line uaKey with
  | .error e => .error e
  | .ok (some _) => .ok acc
  | .ok none =>
  match stripPfx line allowKey with
  | .error e => .error e
  | .ok (some _) => .ok acc
  | .ok none =>
  match stripPfx line disallowKey with
  | .error e => .error e
  | .ok (some _) => .ok acc
  | .ok none =>
  match stripPfx line sitemapKey with
  | .error e => .error e
  | .ok (some v) =>
    if trim v = [] then .ok acc
    else .ok (acc ++ [trim v])
  | .ok none => .ok acc

/-- The sitemap projection folded over a list of lines. -/
def sitemapFold (acc : List Str) : List Str → Except Unit (List Str)
  | [] => .ok acc
  | l :: ls =>
    match sitemapStep acc l with
    | .error e => .error e
    | .ok acc1 => sitemapFold acc1 ls

/-- The sitemap directives a file contributes, extracted independently of
any agent bookkeeping. -/
def sitemapsOnly (file : Str) : Except Unit (List Str) :=
  sitemapFold [] (linesOf file)

/-- Declarative wildcard-matching relation, transcribing the specified
recursive semantics: the empty pattern matches exactly the empty candidate,
a `*` either is consumed against nothing or consumes one candidate character
and stays active, and a literal character must be mirrored exactly. -/
inductive Matches : Str → Str → Prop
  | done : Matches [] []
  | star_zero {p s} : Matches p s → Matches ('*' :: p) s
  | star_one {p c s} : Matches ('*' :: p) s → Matches ('*' :: p) (c :: s)
  | lit {c p s} : Matches p s → Matches (c :: p) (c :: s)

/-- The fuel-indexed evaluator agrees with the recursion once the fuel
exceeds the combined length of the two strings. -/
theorem matchFuel_eq (n : Nat) : ∀ p s : Str, p.length + s.length ≤ n →
    matchFuel (n + 1) p s = match_recursive p s := by
  induction n with
  | zero =>
    intro p s h
    cases p with
    | nil =>
      cases s with
      | nil => simp [matchFuel, match_recursive]
      | cons sc s => simp at h
    | cons pc p => simp at h
  | succ n ih =>
    intro p s h
    cases p with
    | nil =>
      cases s with
      | nil => simp [matchFuel, match_recursive]
      | cons sc s => simp [matchFuel, match_recursive]
    | cons pc p =>
      cases s with
      | nil =>
        simp only [matchFuel, match_recursive]
        by_cases hpc : pc = '*'
        · rw [if_pos hpc, if_pos hpc, ih p [] (by simp at h ⊢; omega)]
        · rw [if_neg hpc, if_neg hpc]
      | cons sc s =>
        simp only [matchFuel, match_recursive]
        by_cases hpc : pc = '*'
        · rw [if_pos hpc, if_pos hpc,
            ih p (sc :: s) (by simp at h ⊢; omega),
            ih (pc :: p) s (by simp at h ⊢; omega)]
        · rw [if_neg hpc, if_neg hpc]
          by_cases hsc : pc = sc
          · rw [if_pos hsc, if_pos hsc, ih p s (by simp at h ⊢; omega)]
          · rw [if_neg hsc, if_neg hsc]

/-- The computable form computes `match_pattern`. -/
theorem match_pattern_eq_fueled : match_pattern = match_patternC := by
  funext p s
  unfold match_pattern match_patternC
  rw [matchFuel_eq (p.length + s.length) p s (Nat.le_refl _)]

/-- Unfolding equation: a star against the empty candidate. -/
theorem match_recursive_star_nil (p : Str) :
    match_recursive ('*' :: p) [] = match_recursive p [] := by
  simp [match_recursive]

/-- Unfolding equation: a star against a non-empty candidate. -/
theorem match_recursive_star_cons (p : Str) (sc : Char) (s : Str) :
    match_recursive ('*' :: p) (sc :: s) =
      (match_recursive p (sc :: s) || match_recursive ('*' :: p) s) := by
  simp [match_recursive]

/-- Unfolding equation: equal literal heads. -/
theorem match_recursive_lit (pc : Char) (p s : Str) (hpc : pc ≠ '*') :
    match_recursive (pc :: p) (pc :: s) = match_recursive p s := by
  simp [match_recursive, hpc]

/-- Soundness and completeness of the recursion for the declarative
relation. -/
theorem match_recursive_iff_matches : (p s : Str) →
    (match_recursive p s = true ↔ Matches p s)
  | [], [] => by
    simp only [match_recursive, true_iff]
    exact Matches.done
  | [], c :: s => by
    simp only [match_recursive, Bool.false_eq_true, false_iff]
    intro h
    cases h
  | pc :: p, [] => by
    by_cases hpc : pc = '*'
    · subst hpc
      rw [match_recursive_star_nil, match_recursive_iff_matches p []]
      constructor
      · exact Matches.star_zero
      · intro h
        cases h with
        | star_zero h => exact h
    · simp only [match_recursive, if_neg hpc, Bool.false_eq_true, false_iff]
      intro h
      cases h with
      | star_zero h => exact hpc rfl
  | pc :: p, sc :: s => by
    by_cases hpc : pc = '*'
    · subst hpc
      rw [match_recursive_star_cons, Bool.or_eq_true,
        match_recursive_iff_matches p (sc :: s),
        match_recursive_iff_matches ('*' :: p) s]
      constructor
      · intro h
        cases h with
        | inl h => exact Matches.star_zero h
        | inr h => exact Matches.star_one h
      · intro h
        cases h with
        | star_zero h => exact Or.inl h
        | star_one h => exact Or.inr h
        | lit h => exact Or.inr (Matches.star_zero h)
    · by_cases hsc : pc = sc
      · subst hsc
        rw [match_recursive_lit pc p s hpc, match_recursive_iff_matches p s]
        constructor
        · exact Matches.lit
        · intro h
          cases h with
          | star_zero h => exact absurd rfl hpc
          | star_one h => exact absurd rfl hpc
          | lit h => exact h
      · simp only [match_recursive, if_neg hpc, if_neg hsc, Bool.false_eq_true,
          false_iff]
        intro h
        cases h with
        | star_zero h => exact hpc rfl
        | star_one h => exact hpc rfl
        | lit h => exact hsc rfl
termination_by p s => p.length + s.length

/-- Without a wildcard the recursion is exact equality of the two strings. -/
theorem match_recursive_no_star (p : Str) (hp : ('*' : Char) ∉ p) :
    ∀ s : Str, (match_recursive p s = true ↔ p = s) := by
  induction p with
  | nil =>
    intro s
    cases s with
    | nil => simp [match_recursive]
    | cons sc s => simp [match_recursive]
  | cons pc p ih =>
    intro s
    have hpc : pc ≠ '*' := fun h => hp (by simp [h])
    cases s with
    | nil => simp [match_recursive, if_neg hpc]
    | cons sc s =>
      by_cases hsc : pc = sc
      · subst hsc
        rw [match_recursive_lit pc p s hpc,
          ih (fun h => hp (by simp [h])) s]
        simp
      · simp [match_recursive, if_neg hpc, if_neg hsc, hsc]

/-- Wildcard pattern of the spec examples. -/
def starPat : Str := "/test/*/file.txt".data

/-- Candidate with one intervening segment. -/
def starCand1 : Str := "/test/anything/file.txt".data

/-- Candidate with several intervening segments (the wildcard spans `/`). -/
def starCand2 : Str := "/test/a/b/c/file.txt".data

/-- Candidate with no intervening segment. -/
def starCand3 : Str := "/test/file.txt".data

/-- C3: for every pattern containing a star, `match_pattern` is decided by
the recursive backtracking semantics `Matches` (star consumes zero or more
characters of any kind, literals must coincide, success only with both
strings exhausted); the spec examples behave as stated. -/
theorem c3_wildcard_semantics (p s : Str) (hp : p.contains '*' = true) :
    (match_pattern p s = true ↔ Matches p s)
    ∧ match_pattern starPat starCand1 = true
    ∧ match_pattern starPat starCand2 = true
    ∧ match_pattern starPat starCand3 = false := by
  refine ⟨?_, ?_, ?_, ?_⟩
  · unfold match_pattern
    rw [hp]
    simp only [Bool.not_true, Bool.false_and, Bool.false_eq_true, if_false]
    exact match_recursive_iff_matches p s
  · rw [match_pattern_eq_fueled]
    decide
  · rw [match_pattern_eq_fueled]
    decide
  · rw [match_pattern_eq_fueled]
    decide

/-- Witness for C3 at the spec's own example. -/
theorem c3_witness :
    starPat.contains '*' = true
    ∧ (match_pattern starPat starCand1 = true ↔ Matches starPat starCand1) :=
  ⟨by decide, (c3_wildcard_semantics starPat starCand1 (by decide)).1⟩

/-- C4: a pattern without a star matches exactly the candidates it is a
literal prefix of; no anchoring to the end, no dollar support. -/
theorem c4_no_star_is_prefix_match (p s : Str) (hp : p.contains '*' = false) :
    match_pattern p s = p.isPrefixOf s := by
  have hmem : ('*' : Char) ∉ p := by simp_all
  unfold match_pattern
  cases hpre : p.isPrefixOf s with
  | true =>
    rw [hp]
    simp
  | false =>
    simp only [hp, hpre, Bool.not_false, Bool.true_and, Bool.false_eq_true,
      if_false]
    cases hmr : match_recursive p s with
    | false => rfl
    | true =>
      exfalso
      have heq := (match_recursive_no_star p hmem s).mp hmr
      rw [← heq] at hpre
      have : p.isPrefixOf p = true := by simp [List.isPrefixOf_iff_prefix]
      rw [this] at hpre
      simp at hpre

/-- Literal pattern for the C4 witness. -/
def noStarPat : Str := "/abc".data

/-- Candidate extending the literal pattern. -/
def noStarCand : Str := "/abcd".data

/-- Witness for C4 at a concrete prefix pair. -/
theorem c4_witness :
    noStarPat.contains '*' = false
    ∧ match_pattern noStarPat noStarCand = noStarPat.isPrefixOf noStarCand :=
  ⟨by decide, c4_no_star_is_prefix_match noStarPat noStarCand (by decide)⟩

/-- Descending byte-length ordering between two pattern strings. -/
def lenGe (a b : Str) : Prop := utf8Len b ≤ utf8Len a

/-- Stable insertion permutes. -/
theorem insertLenDesc_perm (x : Str) (l : List Str) :
    (insertLenDesc x l).Perm (x :: l) := by
  induction l with
  | nil => exact List.Perm.refl _
  | cons y ys ih =>
    unfold insertLenDesc
    by_cases h : utf8Len y ≤ utf8Len x
    · rw [if_pos h]
    · rw [if_neg h]
      exact (ih.cons y).trans (List.Perm.swap x y ys)

/-- The length-sort permutes. -/
theorem sortLenDesc_perm (l : List Str) : (sortLenDesc l).Perm l := by
  induction l with
  | nil => exact List.Perm.refl _
  | cons x xs ih =>
    have : sortLenDesc (x :: xs) = insertLenDesc x (sortLenDesc xs) := rfl
    rw [this]
    exact (insertLenDesc_perm x (sortLenDesc xs)).trans (ih.cons x)

/-- Membership is preserved by the length-sort. -/
theorem mem_sortLenDesc {a : Str} {l : List Str} : a ∈ sortLenDesc l ↔ a ∈ l :=
  (sortLenDesc_perm l).mem_iff

/-- Stable insertion into a descending list stays descending. -/
theorem insertLenDesc_pairwise (x : Str) (l : List Str)
    (h : l.Pairwise lenGe) : (insertLenDesc x l).Pairwise lenGe := by
  induction l with
  | nil => simp [insertLenDesc, lenGe]
  | cons y ys ih =>
    unfold insertLenDesc
    rcases List.pairwise_cons.mp h with ⟨hy, hys⟩
    by_cases hle : utf8Len y ≤ utf8Len x
    · rw [if_pos hle]
      refine List.pairwise_cons.mpr ⟨?_, h⟩
      intro z hz
      cases hz with
      | head => exact hle
      | tail _ hz => exact le_trans (hy z hz) hle
    · rw [if_neg hle]
      refine List.pairwise_cons.mpr ⟨?_, ih hys⟩
      intro z hz
      have hz2 : z ∈ x :: ys := (insertLenDesc_perm x ys).mem_iff.mp hz
      cases hz2 with
      | head => exact le_of_lt (lt_of_not_le hle)
      | tail _ hz2 => exact hy z hz2

/-- The length-sort yields a descending list. -/
theorem sortLenDesc_pairwise (l : List Str) : (sortLenDesc l).Pairwise lenGe := by
  induction l with
  | nil => simp [sortLenDesc]
  | cons x xs ih => exact insertLenDesc_pairwise x (sortLenDesc xs) ih

/-- Stability of the insertion: restricted to any fixed byte length the
list is unchanged. -/
theorem insertLenDesc_filter (x : Str) (l : List Str) (n : Nat) :
    (insertLenDesc x l).filter (fun y => utf8Len y = n)
      = (x :: l).filter (fun y => utf8Len y = n) := by
  induction l with
  | nil => rfl
  | cons y ys ih =>
    unfold insertLenDesc
    by_cases hle : utf8Len y ≤ utf8Len x
    · rw [if_pos hle]
    · rw [if_neg hle]
      by_cases hx : utf8Len x = n
      · by_cases hy : utf8Len y = n
        · exact absurd (hx.trans hy.symm).ge hle
        · simp only [List.filter_cons]
          rw [ih]
          simp [hx, hy]
      · by_cases hy : utf8Len y = n
        · simp only [List.filter_cons]
          rw [ih]
          simp [hx, hy]
        · simp only [List.filter_cons]
          rw [ih]
          simp [hx, hy]

/-- Stability of the length-sort: restricted to any fixed byte length the
original order is kept. -/
theorem sortLenDesc_filter (l : List Str) (n : Nat) :
    (sortLenDesc l).filter (fun y => utf8Len y = n)
      = l.filter (fun y => utf8Len y = n) := by
  induction l with
  | nil => rfl
  | cons x xs ih =>
    have h0 : sortLenDesc (x :: xs) = insertLenDesc x (sortLenDesc xs) := rfl
    rw [h0, insertLenDesc_filter, List.filter_cons, List.filter_cons, ih]

/-- First match in a descending list is a matching element of maximal
length among all matching elements. -/
theorem find?_pairwise_max {q : Str → Bool} {l : List Str} {x : Str}
    (hs : l.Pairwise lenGe) (h : l.find? q = some x) :
    q x = true ∧ x ∈ l ∧ ∀ y ∈ l, q y = true → utf8Len y ≤ utf8Len x := by
  induction l with
  | nil => simp at h
  | cons a as ih =>
    rcases List.pairwise_cons.mp hs with ⟨ha, has⟩
    by_cases hqa : q a = true
    · rw [List.find?_cons_of_pos as hqa] at h
      cases h
      refine ⟨hqa, List.mem_cons_self _ _, ?_⟩
      intro y hy _
      cases hy with
      | head => exact le_refl _
      | tail _ hy => exact ha y hy
    · rw [List.find?_cons_of_neg as (by simp_all)] at h
      rcases ih has h with ⟨h1, h2, h3⟩
      refine ⟨h1, List.mem_cons_of_mem _ h2, ?_⟩
      intro y hy hqy
      cases hy with
      | head => exact absurd hqy hqa
      | tail _ hy => exact h3 y hy hqy

/-- Lookup commutes with the per-rule sorting map over the association
list (keys untouched, values sorted). -/
theorem lookupRule_map_sortRule (rs : List (Str × RobotsTxtRule)) (a : Str) :
    lookupRule (rs.map (fun p => (p.1, sortRule p.2))) a
      = (lookupRule rs a).map sortRule := by
  induction rs with
  | nil => rfl
  | cons p rest ih =>
    rcases p with ⟨k, r⟩
    by_cases h : k = a
    · simp [lookupRule, h]
    · simp [lookupRule, h, ih]

/-- Lookup succeeds exactly on the keys of the association list. -/
theorem lookupRule_isSome_iff (rs : List (Str × RobotsTxtRule)) (a : Str) :
    (lookupRule rs a).isSome ↔ a ∈ rs.map Prod.fst := by
  induction rs with
  | nil =>
    constructor
    · intro h
      simp [lookupRule] at h
    · intro h
      simp at h
  | cons p rest ih =>
    rcases p with ⟨k, r⟩
    simp only [lookupRule, List.map_cons, List.mem_cons]
    by_cases h : k = a
    · rw [if_pos h]
      exact ⟨fun _ => Or.inl h.symm, fun _ => rfl⟩
    · rw [if_neg h, ih]
      constructor
      · exact Or.inr
      · intro hm
        cases hm with
        | inl hm => exact absurd hm.symm h
        | inr hm => exact hm

/-- Lookup after an update at the same key. -/
theorem lookupRule_updateRule_self (rs : List (Str × RobotsTxtRule)) (a : Str)
    (f : RobotsTxtRule → RobotsTxtRule) :
    lookupRule (updateRule rs a f) a
      = some (f ((lookupRule rs a).getD emptyRule)) := by
  induction rs with
  | nil => simp [updateRule, lookupRule]
  | cons p rest ih =>
    rcases p with ⟨k, r⟩
    by_cases h : k = a
    · simp [updateRule, lookupRule, h]
    · simp [updateRule, lookupRule, h, ih]

/-- Lookup after an update at a different key. -/
theorem lookupRule_updateRule_ne (rs : List (Str × RobotsTxtRule)) (a b : Str)
    (f : RobotsTxtRule → RobotsTxtRule) (h : b ≠ a) :
    lookupRule (updateRule rs a f) b = lookupRule rs b := by
  induction rs with
  | nil => simp [updateRule, lookupRule, h, Ne.symm h]
  | cons p rest ih =>
    rcases p with ⟨k, r⟩
    by_cases hk : k = a
    · subst hk
      simp [updateRule, lookupRule, Ne.symm h]
    · by_cases hkb : k = b
      · simp [updateRule, lookupRule, hk, hkb, h]
      · simp [updateRule, lookupRule, hk, hkb, ih]

/-- C2: path resolution follows the four-row decision table over the first
matching entries of the allow and disallow lists, with the strict-length
comparison so that equal lengths resolve to disallowed. -/
theorem c2_decision_table (r : RobotsTxtRule) (path : Str)
    (bestA bestD : Option Str)
    (hA : r.allow.find? (fun q => match_pattern q path) = bestA)
    (hD : r.disallow.find? (fun q => match_pattern q path) = bestD) :
    (bestA ≠ none → bestD = none → r.is_allowed path = true)
    ∧ (bestA = none → bestD ≠ none → r.is_allowed path = false)
    ∧ (bestA = none → bestD = none → r.is_allowed path = true)
    ∧ (∀ a d, bestA = some a → bestD = some d →
        (r.is_allowed path = true ↔ utf8Len d < utf8Len a))
    ∧ (∀ a d, bestA = some a → bestD = some d → utf8Len a = utf8Len d →
        r.is_allowed path = false) := by
  unfold RobotsTxtRule.is_allowed
  rw [hA, hD]
  cases bestA with
  | none =>
    cases bestD with
    | none => simp
    | some d => simp
  | some a =>
    cases bestD with
    | none => simp
    | some d =>
      refine ⟨by simp, by simp, by simp, ?_, ?_⟩
      · intro a1 d1 ha hd
        cases ha
        cases hd
        simp
      · intro a1 d1 ha hd hlen
        cases ha
        cases hd
        simp
        omega

/-- Rule for the C2 witness: allow `/`, disallow `/private/`. -/
def c2rule : RobotsTxtRule :=
  { allow := ["/".data], disallow := ["/private/".data] }

/-- Path for the C2 witness. -/
def c2path : Str := "/private/doc".data

/-- Witness for C2: both lists have a matching entry, the disallow entry is
longer, so the path is disallowed. -/
theorem c2_witness : c2rule.is_allowed c2path = false := by
  have h := (c2_decision_table c2rule c2path (some ("/".data))
    (some ("/private/".data)) (by decide) (by decide)).2.2.2.1
    ("/".data) ("/private/".data) rfl rfl
  have hlt : ¬utf8Len ("/private/".data) < utf8Len ("/".data) := by decide
  exact Bool.eq_false_iff.mpr (fun hb => hlt (h.mp hb))

/-- Eliminating a successful parse into the underlying scan state. -/
theorem parse_ok_elim (file : Str) (r : RobotsTxt)
    (h : RobotsTxt.parse file = .ok r) :
    ∃ st, processLines initState (linesOf file) = .ok st
      ∧ r = RobotsTxt.build st (st.rules.map Prod.fst) := by
  unfold RobotsTxt.parse at h
  split at h
  · cases h
  · rename_i st hst
    cases h
    exact ⟨st, hst, rfl⟩

/-- Case analysis on one loop iteration: it leaves the state unchanged,
sets the current agent, pushes one allow or disallow pattern under the
current agent, or appends one sitemap. -/
theorem processLine_cases (st : ParseState) (l : Str) (st1 : ParseState)
    (h : processLine st l = .ok st1) :
    st1 = st
    ∨ (∃ a, st1 = { st with current_agent := some a })
    ∨ (∃ agent v, st.current_agent = some agent ∧ v ≠ [] ∧
        (st1 = { st with rules := updateRule st.rules agent (pushAllow v) } ∨
         st1 = { st with rules := updateRule st.rules agent (pushDisallow v) }))
    ∨ (∃ v, st1 = { st with sitemaps := st.sitemaps ++ [v] }) := by
  simp only [processLine] at h
  by_cases h0 : trim l = [] ∨ (trim l).head? = some '#'
  · rw [if_pos h0] at h
    cases h
    exact Or.inl rfl
  · rw [if_neg h0] at h
    cases hua : stripPfx (trim l) uaKey with
    | error e =>
          simp only [hua] at h
          cases h
    | ok oa =>
      cases oa with
      | some agent =>
        simp only [hua, Except.ok.injEq] at h
        exact Or.inr (Or.inl ⟨trim agent, h.symm⟩)
      | none =>
        simp only [hua] at h
        cases hal : stripPfx (trim l) allowKey with
        | error e =>
          simp only [hal] at h
          cases h
        | ok oa2 =>
          cases oa2 with
          | some v =>
            simp only [hal] at h
            cases hcur : st.current_agent with
            | none =>
              simp only [hcur, Except.ok.injEq] at h
              exact Or.inl h.symm
            | some agent =>
              simp only [hcur] at h
              by_cases hv : trim v = []
              · rw [if_pos hv] at h
                cases h
                exact Or.inl rfl
              · rw [if_neg hv] at h
                simp only [Except.ok.injEq] at h
                exact Or.inr (Or.inr (Or.inl
                  ⟨agent, trim v, rfl, hv, Or.inl h.symm⟩))
          | none =>
            simp only [hal] at h
            cases hdi : stripPfx (trim l) disallowKey with
            | error e =>
          simp only [hdi] at h
          cases h
            | ok oa3 =>
              cases oa3 with
              | some v =>
                simp only [hdi] at h
                cases hcur : st.current_agent with
                | none =>
                  simp only [hcur, Except.ok.injEq] at h
                  exact Or.inl h.symm
                | some agent =>
                  simp only [hcur] at h
                  by_cases hv : trim v = []
                  · rw [if_pos hv] at h
                    cases h
                    exact Or.inl rfl
                  · rw [if_neg hv] at h
                    simp only [Except.ok.injEq] at h
                    exact Or.inr (Or.inr (Or.inl
                      ⟨agent, trim v, rfl, hv, Or.inr h.symm⟩))
              | none =>
                simp only [hdi] at h
                cases hsi : stripPfx (trim l) sitemapKey with
                | error e =>
          simp only [hsi] at h
          cases h
                | ok oa4 =>
                  cases oa4 with
                  | some v =>
                    simp only [hsi] at h
                    by_cases hv : trim v = []
                    · rw [if_pos hv] at h
                      cases h
                      exact Or.inl rfl
                    · rw [if_neg hv] at h
                      simp only [Except.ok.injEq] at h
                      exact Or.inr (Or.inr (Or.inr ⟨trim v, h.symm⟩))
                  | none =>
                    simp only [hsi, Except.ok.injEq] at h
                    exact Or.inl h.symm

/-- One loop iteration changes the sitemap list exactly as the sitemap
projection does. -/
theorem sitemapStep_of_processLine (st : ParseState) (l : Str)
    (st1 : ParseState) (h : processLine st l = .ok st1) :
    sitemapStep st.sitemaps l = .ok st1.sitemaps := by
  simp only [processLine] at h
  simp only [sitemapStep]
  by_cases h0 : trim l = [] ∨ (trim l).head? = some '#'
  · rw [if_pos h0] at h
    rw [if_pos h0]
    cases h
    rfl
  · rw [if_neg h0] at h
    rw [if_neg h0]
    cases hua : stripPfx (trim l) uaKey with
    | error e =>
      simp only [hua] at h
      cases h
    | ok oa =>
      cases oa with
      | some agent =>
        simp only [hua, Except.ok.injEq] at h
        simp only [hua]
        rw [← h]
      | none =>
        simp only [hua] at h
        simp only [hua]
        cases hal : stripPfx (trim l) allowKey with
        | error e =>
          simp only [hal] at h
          cases h
        | ok oa2 =>
          cases oa2 with
          | some v =>
            simp only [hal] at h
            simp only [hal]
            cases hcur : st.current_agent with
            | none =>
              simp only [hcur, Except.ok.injEq] at h
              rw [← h]
            | some agent =>
              simp only [hcur] at h
              by_cases hv : trim v = []
              · rw [if_pos hv] at h
                cases h
                rfl
              · rw [if_neg hv] at h
                simp only [Except.ok.injEq] at h
                rw [← h]
          | none =>
            simp only [hal] at h
            simp only [hal]
            cases hdi : stripPfx (trim l) disallowKey with
            | error e =>
              simp only [hdi] at h
              cases h
            | ok oa3 =>
              cases oa3 with
              | some v =>
                simp only [hdi] at h
                simp only [hdi]
                cases hcur : st.current_agent with
                | none =>
                  simp only [hcur, Except.ok.injEq] at h
                  rw [← h]
                | some agent =>
                  simp only [hcur] at h
                  by_cases hv : trim v = []
                  · rw [if_pos hv] at h
                    cases h
                    rfl
                  · rw [if_neg hv] at h
                    simp only [Except.ok.injEq] at h
                    rw [← h]
              | none =>
                simp only [hdi] at h
                simp only [hdi]
                cases hsi : stripPfx (trim l) sitemapKey with
                | error e =>
                  simp only [hsi] at h
                  cases h
                | ok oa4 =>
                  cases oa4 with
                  | some v =>
                    simp only [hsi] at h
                    simp only [hsi]
                    by_cases hv : trim v = []
                    · rw [if_pos hv] at h
                      rw [if_pos hv]
                      cases h
                      rfl
                    · rw [if_neg hv] at h
                      rw [if_neg hv]
                      simp only [Except.ok.injEq] at h
                      rw [← h]
                  | none =>
                    simp only [hsi, Except.ok.injEq] at h
                    simp only [hsi]
                    rw [← h]

/-- The sitemap projection folded over all lines tracks the parse loop. -/
theorem sitemapFold_of_processLines (ls : List Str) : ∀ st st1 : ParseState,
    processLines st ls = .ok st1 →
    sitemapFold st.sitemaps ls = .ok st1.sitemaps := by
  induction ls with
  | nil =>
    intro st st1 h
    simp only [processLines] at h
    cases h
    rfl
  | cons l ls ih =>
    intro st st1 h
    simp only [processLines] at h
    cases hpl : processLine st l with
    | error e =>
      simp only [hpl] at h
      cases h
    | ok st2 =>
      simp only [hpl] at h
      simp only [sitemapFold, sitemapStep_of_processLine st l st2 hpl]
      exact ih st2 st1 h

/-- A line that is not a `User-agent` directive, processed with no current
agent, changes neither the current agent nor the rule map. -/
theorem processLine_no_ua (st : ParseState) (l : Str) (st1 : ParseState)
    (hua0 : isUADirective l = false) (hcur : st.current_agent = none)
    (h : processLine st l = .ok st1) :
    st1.current_agent = none ∧ st1.rules = st.rules := by
  simp only [processLine] at h
  by_cases h0 : trim l = [] ∨ (trim l).head? = some '#'
  · rw [if_pos h0] at h
    cases h
    exact ⟨hcur, rfl⟩
  · rw [if_neg h0] at h
    cases hua : stripPfx (trim l) uaKey with
    | error e =>
      simp only [hua] at h
      cases h
    | ok oa =>
      cases oa with
      | some agent =>
        exfalso
        simp [isUADirective, hua] at hua0
      | none =>
        simp only [hua] at h
        cases hal : stripPfx (trim l) allowKey with
        | error e =>
          simp only [hal] at h
          cases h
        | ok oa2 =>
          cases oa2 with
          | some v =>
            simp only [hal, hcur, Except.ok.injEq] at h
            rw [← h]
            exact ⟨hcur, rfl⟩
          | none =>
            simp only [hal] at h
            cases hdi : stripPfx (trim l) disallowKey with
            | error e =>
              simp only [hdi] at h
              cases h
            | ok oa3 =>
              cases oa3 with
              | some v =>
                simp only [hdi, hcur, Except.ok.injEq] at h
                rw [← h]
                exact ⟨hcur, rfl⟩
              | none =>
                simp only [hdi] at h
                cases hsi : stripPfx (trim l) sitemapKey with
                | error e =>
                  simp only [hsi] at h
                  cases h
                | ok oa4 =>
                  cases oa4 with
                  | some v =>
                    simp only [hsi] at h
                    by_cases hv : trim v = []
                    · rw [if_pos hv] at h
                      cases h
                      exact ⟨hcur, rfl⟩
                    · rw [if_neg hv] at h
                      simp only [Except.ok.injEq] at h
                      rw [← h]
                      exact ⟨hcur, rfl⟩
                  | none =>
                    simp only [hsi, Except.ok.injEq] at h
                    rw [← h]
                    exact ⟨hcur, rfl⟩

/-- Scanning lines none of which is a `User-agent` directive, starting with
no current agent, leaves the current agent unset and the rule map
untouched. -/
theorem processLines_no_ua (ls : List Str) : ∀ st st1 : ParseState,
    (∀ l ∈ ls, isUADirective l = false) → st.current_agent = none →
    processLines st ls = .ok st1 →
    st1.current_agent = none ∧ st1.rules = st.rules := by
  induction ls with
  | nil =>
    intro st st1 _ hcur h
    simp only [processLines] at h
    cases h
    exact ⟨hcur, rfl⟩
  | cons l ls ih =>
    intro st st1 hall hcur h
    simp only [processLines] at h
    cases hpl : processLine st l with
    | error e =>
      simp only [hpl] at h
      cases h
    | ok st2 =>
      simp only [hpl] at h
      have h2 := processLine_no_ua st l st2
        (hall l (List.mem_cons_self _ _)) hcur hpl
      have h3 := ih st2 st1 (fun x hx => hall x (List.mem_cons_of_mem _ hx))
        h2.1 h
      exact ⟨h3.1, h3.2.trans h2.2⟩

/-- C6: blank and comment lines are skipped, a line matching none of the
four colon-space directive prefixes is discarded, and for input with no
`User-agent` lines the rule map and agent index come out empty while
sitemap directives are still collected. -/
theorem c6_line_recognition (file : Str) (r : RobotsTxt)
    (h : RobotsTxt.parse file = .ok r)
    (hua : ∀ l ∈ linesOf file, isUADirective l = false) :
    r.rules = [] ∧ r.agents_ordered = [] ∧ sitemapsOnly file = .ok r.sitemaps
    ∧ (∀ (st2 : ParseState) (l2 : Str),
        trim l2 = [] ∨ (trim l2).head? = some '#' → processLine st2 l2 = .ok st2)
    ∧ (∀ (st2 : ParseState) (l2 : Str),
        stripPfx (trim l2) uaKey = .ok none →
        stripPfx (trim l2) allowKey = .ok none →
        stripPfx (trim l2) disallowKey = .ok none →
        stripPfx (trim l2) sitemapKey = .ok none →
        processLine st2 l2 = .ok st2) := by
  rcases parse_ok_elim file r h with ⟨st, hst, hb⟩
  have hn := processLines_no_ua (linesOf file) initState st hua rfl hst
  have hrules : st.rules = [] := hn.2
  refine ⟨?_, ?_, ?_, ?_, ?_⟩
  · rw [hb]
    simp [RobotsTxt.build, hrules]
  · rw [hb]
    simp [RobotsTxt.build, hrules, sortLenDesc]
  · have hsm := sitemapFold_of_processLines (linesOf file) initState st hst
    rw [hb]
    exact hsm
  · intro st2 l2 h0
    simp only [processLine]
    rw [if_pos h0]
  · intro st2 l2 h1 h2 h3 h4
    by_cases h0 : trim l2 = [] ∨ (trim l2).head? = some '#'
    · simp only [processLine]
      rw [if_pos h0]
    · simp only [processLine]
      rw [if_neg h0]
      simp only [h1, h2, h3, h4]

/-- File with directives but no `User-agent` line, for the C6 witness. -/
def c6file : Str := "Allow: /secret\nSitemap: https://e.com/s.xml\njunk line".data

/-- Expected parse of `c6file`. -/
def c6r : RobotsTxt :=
  { rules := [], sitemaps := ["https://e.com/s.xml".data], agents_ordered := [] }

/-- Witness for C6 on a concrete file with no user-agent lines. -/
theorem c6_witness :
    RobotsTxt.parse c6file = .ok c6r
    ∧ (c6r.rules = [] ∧ c6r.agents_ordered = []
        ∧ sitemapsOnly c6file = .ok c6r.sitemaps
        ∧ (∀ (st2 : ParseState) (l2 : Str),
            trim l2 = [] ∨ (trim l2).head? = some '#' →
            processLine st2 l2 = .ok st2)
        ∧ (∀ (st2 : ParseState) (l2 : Str),
            stripPfx (trim l2) uaKey = .ok none →
            stripPfx (trim l2) allowKey = .ok none →
            stripPfx (trim l2) disallowKey = .ok none →
            stripPfx (trim l2) sitemapKey = .ok none →
            processLine st2 l2 = .ok st2)) :=
  ⟨by decide, c6_line_recognition c6file c6r (by decide) (by decide)⟩

/-- C5: if no agent-pattern in the length-sorted index matches the
user-agent then the path is allowed unconditionally; otherwise the first
matching pattern's rules decide the outcome. -/
theorem c5_agent_resolution (file : Str) (r : RobotsTxt)
    (h : RobotsTxt.parse file = .ok r) (ua path : Str) :
    (r.find_matching_agent ua = none → r.is_allowed ua path = .ok true)
    ∧ (∀ pat, r.find_matching_agent ua = some pat →
        ∃ rule, lookupRule r.rules pat = some rule
          ∧ r.is_allowed ua path = .ok (rule.is_allowed path)) := by
  rcases parse_ok_elim file r h with ⟨st, hst, hb⟩
  constructor
  · intro hfind
    simp only [RobotsTxt.is_allowed, RobotsTxt.get_agent_rules, hfind]
  · intro pat hfind
    have hmem : pat ∈ r.agents_ordered :=
      List.mem_of_find?_eq_some hfind
    have hmemk : pat ∈ st.rules.map Prod.fst := by
      rw [hb] at hmem
      exact mem_sortLenDesc.mp hmem
    have hsome : (lookupRule st.rules pat).isSome = true :=
      (lookupRule_isSome_iff st.rules pat).mpr hmemk
    rcases Option.isSome_iff_exists.mp hsome with ⟨ru0, hru0⟩
    have hlook : lookupRule r.rules pat = some (sortRule ru0) := by
      rw [hb]
      show lookupRule ((RobotsTxt.build st (st.rules.map Prod.fst)).rules) pat
        = some (sortRule ru0)
      simp only [RobotsTxt.build]
      rw [lookupRule_map_sortRule, hru0]
      rfl
    refine ⟨sortRule ru0, hlook, ?_⟩
    simp only [RobotsTxt.is_allowed, RobotsTxt.get_agent_rules, hfind, hlook]

/-- File for the C5 witness. -/
def c5file : Str := "User-agent: KirbyBot\nDisallow: /".data

/-- Expected parse of `c5file`. -/
def c5r : RobotsTxt :=
  { rules := [("KirbyBot".data, { allow := [], disallow := ["/".data] })],
    sitemaps := [],
    agents_ordered := ["KirbyBot".data] }

/-- The agent name used in the C5 witness. -/
def kbKey : Str := "KirbyBot".data

/-- A user-agent matched by nothing in `c5file`. -/
def zebraKey : Str := "Zebra".data

/-- Query path of the C5 witness. -/
def c5path : Str := "/x".data

/-- Witness for C5: a governed and an ungoverned user-agent. -/
theorem c5_witness :
    (∃ rule, lookupRule c5r.rules kbKey = some rule
      ∧ c5r.is_allowed kbKey c5path = .ok (rule.is_allowed c5path))
    ∧ c5r.is_allowed zebraKey c5path = .ok true :=
  ⟨(c5_agent_resolution c5file c5r (by decide) kbKey c5path).2 kbKey (by decide),
   (c5_agent_resolution c5file c5r (by decide) zebraKey c5path).1 (by
      simp only [RobotsTxt.find_matching_agent, match_pattern_eq_fueled]
      decide)⟩

/-- Keys of an association list survive the value-sorting map. -/
theorem keys_map_sortRule (rs : List (Str × RobotsTxtRule)) :
    (rs.map (fun p => (p.1, sortRule p.2))).map Prod.fst = rs.map Prod.fst := by
  simp [List.map_map, Function.comp]

/-- C7: after a successful parse every rule list is descending by byte
length and, restricted to any fixed length, in original scan order; the
agent index is a permutation of the rule-map keys sorted descending. -/
theorem c7_sorted_invariants (file : Str) (r : RobotsTxt)
    (h : RobotsTxt.parse file = .ok r) :
    (∀ pat ru, lookupRule r.rules pat = some ru →
        ru.allow.Pairwise lenGe ∧ ru.disallow.Pairwise lenGe)
    ∧ r.agents_ordered.Perm (r.rules.map Prod.fst)
    ∧ r.agents_ordered.Pairwise lenGe
    ∧ (∀ st, processLines initState (linesOf file) = .ok st →
        ∀ pat ru0 ru, lookupRule st.rules pat = some ru0 →
          lookupRule r.rules pat = some ru →
          ∀ n, ru.allow.filter (fun x => utf8Len x = n)
                 = ru0.allow.filter (fun x => utf8Len x = n)
             ∧ ru.disallow.filter (fun x => utf8Len x = n)
                 = ru0.disallow.filter (fun x => utf8Len x = n)) := by
  rcases parse_ok_elim file r h with ⟨st, hst, hb⟩
  have hrules : r.rules = st.rules.map (fun p => (p.1, sortRule p.2)) := by
    rw [hb]
    rfl
  have hagents : r.agents_ordered = sortLenDesc (st.rules.map Prod.fst) := by
    rw [hb]
    rfl
  refine ⟨?_, ?_, ?_, ?_⟩
  · intro pat ru hru
    rw [hrules, lookupRule_map_sortRule] at hru
    cases hru0 : lookupRule st.rules pat with
    | none =>
      rw [hru0] at hru
      cases hru
    | some ru0 =>
      rw [hru0] at hru
      have hru2 : sortRule ru0 = ru := by simpa using hru
      rw [← hru2]
      simp only [sortRule]
      exact ⟨sortLenDesc_pairwise _, sortLenDesc_pairwise _⟩
  · rw [hrules, hagents, keys_map_sortRule]
    exact sortLenDesc_perm _
  · rw [hagents]
    exact sortLenDesc_pairwise _
  · intro st2 hst2 pat ru0 ru hru0 hru
    rw [hst] at hst2
    cases hst2
    rw [hrules, lookupRule_map_sortRule, hru0] at hru
    have hru' : sortRule ru0 = ru := by
      simpa using hru
    rw [← hru']
    intro n
    exact ⟨sortLenDesc_filter _ n, sortLenDesc_filter _ n⟩

/-- The end-to-end example file of the spec. -/
def exFile : Str :=
  "User-agent: *\nDisallow: /\nUser-agent: KirbyBot\nAllow: /\nDisallow: /prevented/\nSitemap: https://example.com/sitemap.xml".data

/-- Expected parse of `exFile`. -/
def exR : RobotsTxt :=
  { rules := [("*".data, { allow := [], disallow := ["/".data] }),
              ("KirbyBot".data,
               { allow := ["/".data], disallow := ["/prevented/".data] })],
    sitemaps := ["https://example.com/sitemap.xml".data],
    agents_ordered := ["KirbyBot".data, "*".data] }

/-- Witness for C7 on the spec's end-to-end example. -/
theorem c7_witness :
    RobotsTxt.parse exFile = .ok exR
    ∧ ((∀ pat ru, lookupRule exR.rules pat = some ru →
          ru.allow.Pairwise lenGe ∧ ru.disallow.Pairwise lenGe)
        ∧ exR.agents_ordered.Perm (exR.rules.map Prod.fst)
        ∧ exR.agents_ordered.Pairwise lenGe
        ∧ (∀ st, processLines initState (linesOf exFile) = .ok st →
            ∀ pat ru0 ru, lookupRule st.rules pat = some ru0 →
              lookupRule exR.rules pat = some ru →
              ∀ n, ru.allow.filter (fun x => utf8Len x = n)
                     = ru0.allow.filter (fun x => utf8Len x = n)
                 ∧ ru.disallow.filter (fun x => utf8Len x = n)
                     = ru0.disallow.filter (fun x => utf8Len x = n))) :=
  ⟨by decide, c7_sorted_invariants exFile exR (by decide)⟩

/-- One loop iteration can only extend the accumulated rule lists of any
agent already present: the old lists stay as prefixes. -/
theorem processLine_rule_extends (st : ParseState) (l : Str)
    (st1 : ParseState) (a : Str) (r : RobotsTxtRule)
    (h : processLine st l = .ok st1) (hr : lookupRule st.rules a = some r) :
    ∃ r1, lookupRule st1.rules a = some r1
      ∧ r.allow <+: r1.allow ∧ r.disallow <+: r1.disallow := by
  rcases processLine_cases st l st1 h with h1 | ⟨ag, h1⟩ | ⟨agent, v, hcur, hv, h1 | h1⟩ | ⟨v, h1⟩
  · rw [h1]
    exact ⟨r, hr, List.prefix_refl _, List.prefix_refl _⟩
  · rw [h1]
    exact ⟨r, hr, List.prefix_refl _, List.prefix_refl _⟩
  · rw [h1]
    by_cases hak : a = agent
    · subst hak
      rw [show ({ st with rules := updateRule st.rules a (pushAllow v) } : ParseState).rules
          = updateRule st.rules a (pushAllow v) from rfl,
        lookupRule_updateRule_self, hr]
      refine ⟨pushAllow v r, rfl, ?_, List.prefix_refl _⟩
      exact List.prefix_append _ _
    · rw [show ({ st with rules := updateRule st.rules agent (pushAllow v) } : ParseState).rules
          = updateRule st.rules agent (pushAllow v) from rfl,
        lookupRule_updateRule_ne _ _ _ _ hak]
      exact ⟨r, hr, List.prefix_refl _, List.prefix_refl _⟩
  · rw [h1]
    by_cases hak : a = agent
    · subst hak
      rw [show ({ st with rules := updateRule st.rules a (pushDisallow v) } : ParseState).rules
          = updateRule st.rules a (pushDisallow v) from rfl,
        lookupRule_updateRule_self, hr]
      refine ⟨pushDisallow v r, rfl, List.prefix_refl _, ?_⟩
      exact List.prefix_append _ _
    · rw [show ({ st with rules := updateRule st.rules agent (pushDisallow v) } : ParseState).rules
          = updateRule st.rules agent (pushDisallow v) from rfl,
        lookupRule_updateRule_ne _ _ _ _ hak]
      exact ⟨r, hr, List.prefix_refl _, List.prefix_refl _⟩
  · rw [h1]
    exact ⟨r, hr, List.prefix_refl _, List.prefix_refl _⟩

/-- Scanning any further lines only extends the accumulated rule lists of
an agent already present. -/
theorem processLines_rule_extends (ls : List Str) : ∀ (st st1 : ParseState)
    (a : Str) (r : RobotsTxtRule), processLines st ls = .ok st1 →
    lookupRule st.rules a = some r →
    ∃ r1, lookupRule st1.rules a = some r1
      ∧ r.allow <+: r1.allow ∧ r.disallow <+: r1.disallow := by
  induction ls with
  | nil =>
    intro st st1 a r h hr
    simp only [processLines] at h
    cases h
    exact ⟨r, hr, List.prefix_refl _, List.prefix_refl _⟩
  | cons l ls ih =>
    intro st st1 a r h hr
    simp only [processLines] at h
    cases hpl : processLine st l with
    | error e =>
      simp only [hpl] at h
      cases h
    | ok st2 =>
      simp only [hpl] at h
      rcases processLine_rule_extends st l st2 a r hpl hr with ⟨r2, hr2, hp2, hq2⟩
      rcases ih st2 st1 a r2 h hr2 with ⟨r1, hr1, hp1, hq1⟩
      exact ⟨r1, hr1, hp2.trans hp1, hq2.trans hq1⟩

/-- Demo file for C8: the agent `A` is declared twice with intervening
lines. -/
def c8file : Str :=
  "User-agent: A\nAllow: /one\nUser-agent: B\nDisallow: /b\nUser-agent: A\nAllow: /two22".data

/-- The re-declared agent of `c8file`. -/
def c8agent : Str := "A".data

/-- First allow value recorded under `A`. -/
def c8v1 : Str := "/one".data

/-- Second allow value recorded under `A`, after the re-declaration. -/
def c8v2 : Str := "/two22".data

/-- C8: processing further lines never overwrites an agent's accumulated
lists (the old lists remain prefixes), and on the demo file the directive
under the second `User-agent: A` is appended after the first one. -/
theorem c8_append_not_overwrite (ls : List Str) (st1 st2 : ParseState)
    (agent : Str) (r : RobotsTxtRule)
    (h : processLines st1 ls = .ok st2)
    (hr : lookupRule st1.rules agent = some r) :
    (∃ r2, lookupRule st2.rules agent = some r2
      ∧ r.allow <+: r2.allow ∧ r.disallow <+: r2.disallow)
    ∧ (processLines initState (linesOf c8file)).map
        (fun st => lookupRule st.rules c8agent)
        = .ok (some { allow := [c8v1, c8v2], disallow := [] }) :=
  ⟨processLines_rule_extends ls st1 st2 agent r h hr, by decide⟩

/-- Lines processed in the C8 witness: the re-declaration of `A` and one
more allow directive. -/
def c8ls : List Str := ["User-agent: A".data, "Allow: /two22".data]

/-- State before the re-declaration of `A` in the C8 witness. -/
def c8st1 : ParseState :=
  { current_agent := some ("B".data),
    rules := [("A".data, { allow := ["/one".data], disallow := [] }),
              ("B".data, { allow := [], disallow := ["/b".data] })],
    sitemaps := [] }

/-- State after the re-declaration and the extra allow directive. -/
def c8st2 : ParseState :=
  { current_agent := some ("A".data),
    rules := [("A".data, { allow := ["/one".data, "/two22".data], disallow := [] }),
              ("B".data, { allow := [], disallow := ["/b".data] })],
    sitemaps := [] }

/-- Rule accumulated under `A` before the re-declaration. -/
def c8r1 : RobotsTxtRule := { allow := ["/one".data], disallow := [] }

/-- Witness for C8 at the concrete re-declaration states. -/
theorem c8_witness :
    (∃ r2, lookupRule c8st2.rules c8agent = some r2
      ∧ c8r1.allow <+: r2.allow ∧ c8r1.disallow <+: r2.disallow)
    ∧ (processLines initState (linesOf c8file)).map
        (fun st => lookupRule st.rules c8agent)
        = .ok (some { allow := [c8v1, c8v2], disallow := [] }) :=
  c8_append_not_overwrite c8ls c8st1 c8st2 c8agent c8r1 (by decide) (by decide)

/-- Computable mirror of `RobotsTxtRule.is_allowed` (proof device for
evaluating concrete queries; see `is_allowed_eq_computable`). -/
def RobotsTxtRule.is_allowedC (r : RobotsTxtRule) (path : Str) : Bool :=
  match r.allow.find? (fun pattern => match_patternC pattern path),
        r.disallow.find? (fun pattern => match_patternC pattern path) with
  | some _, none => true
  | none, some _ => false
  | some allow, some disallow => decide (utf8Len disallow < utf8Len allow)
  | none, none => true

/-- Computable mirror of `RobotsTxt.find_matching_agent`. -/
def RobotsTxt.find_matching_agentC (t : RobotsTxt) (user_agent : Str) : Option Str :=
  t.agents_ordered.find? (fun pattern => match_patternC pattern user_agent)

/-- Computable mirror of `RobotsTxt.is_allowed`. -/
def RobotsTxt.is_allowedC (t : RobotsTxt) (user_agent path : Str) :
    Except Unit Bool :=
  match t.find_matching_agentC user_agent with
  | none => .ok true
  | some pattern =>
    match lookupRule t.rules pattern with
    | some r => .ok (r.is_allowedC path)
    | none => .error ()

/-- The two agent resolutions agree. -/
theorem find_matching_agent_eq_computable (t : RobotsTxt) (ua : Str) :
    t.find_matching_agent ua = t.find_matching_agentC ua := by
  simp only [RobotsTxt.find_matching_agent, RobotsTxt.find_matching_agentC,
    match_pattern_eq_fueled]

/-- The two rule-level decisions agree. -/
theorem rule_is_allowed_eq_computable (r : RobotsTxtRule) (path : Str) :
    r.is_allowed path = r.is_allowedC path := by
  simp only [RobotsTxtRule.is_allowed, RobotsTxtRule.is_allowedC,
    match_pattern_eq_fueled]

/-- The two top-level decisions agree. -/
theorem is_allowed_eq_computable (t : RobotsTxt) (ua path : Str) :
    t.is_allowed ua path = t.is_allowedC ua path := by
  simp only [RobotsTxt.is_allowed, RobotsTxt.get_agent_rules,
    RobotsTxt.is_allowedC, find_matching_agent_eq_computable]
  cases t.find_matching_agentC ua with
  | none => rfl
  | some pat =>
    cases hlook : lookupRule t.rules pat with
    | none => simp only [hlook]
    | some r => simp only [hlook, rule_is_allowed_eq_computable]

/-- File whose two agent patterns have equal length and both match the
user-agent `aa`. -/
def c9file : Str := "User-agent: a*\nDisallow: /\nUser-agent: *a\nAllow: /".data

/-- First agent pattern of `c9file`. -/
def c9k1 : Str := "a*".data

/-- Second agent pattern of `c9file`. -/
def c9k2 : Str := "*a".data

/-- User-agent matched by both patterns of `c9file`. -/
def c9ua : Str := "aa".data

/-- Query path for the C9 counterexample. -/
def c9path : Str := "/x".data

/-- Counterexample to C9 as stated: both key enumerations are permutations
of the parsed rule-map keys, yet the two parses answer the same
`(user-agent, path)` query differently, so the result of `parse` followed
by `is_allowed` depends on the hash-map key-iteration order. -/
theorem c9_counterexample :
    (processLines initState (linesOf c9file)).map (fun st => st.rules.map Prod.fst)
      = .ok [c9k1, c9k2]
    ∧ [c9k1, c9k2].Perm [c9k2, c9k1]
    ∧ (RobotsTxt.parseWithKeys c9file [c9k1, c9k2]).bind
        (fun t => t.is_allowed c9ua c9path) = .ok false
    ∧ (RobotsTxt.parseWithKeys c9file [c9k2, c9k1]).bind
        (fun t => t.is_allowed c9ua c9path) = .ok true := by
  refine ⟨by decide, by decide, ?_, ?_⟩
  · simp only [is_allowed_eq_computable]
    decide
  · simp only [is_allowed_eq_computable]
    decide

/-- C9 (amended): for any two enumerations of the rule-map keys, the
resulting rule maps and sitemap lists coincide; the answer to a query also
coincides whenever no two distinct equal-length agent-patterns both match
the user-agent. -/
theorem c9_deterministic_up_to_key_order (file : Str) (k1 k2 : List Str)
    (st : ParseState) (hst : processLines initState (linesOf file) = .ok st)
    (hp1 : k1.Perm (st.rules.map Prod.fst))
    (hp2 : k2.Perm (st.rules.map Prod.fst)) (ua path : Str)
    (huniq : ∀ p1 p2, p1 ∈ k1 → p2 ∈ k1 → match_pattern p1 ua = true →
      match_pattern p2 ua = true → utf8Len p1 = utf8Len p2 → p1 = p2) :
    ∃ t1 t2, RobotsTxt.parseWithKeys file k1 = .ok t1
      ∧ RobotsTxt.parseWithKeys file k2 = .ok t2
      ∧ t1.rules = t2.rules ∧ t1.sitemaps = t2.sitemaps
      ∧ t1.is_allowed ua path = t2.is_allowed ua path := by
  refine ⟨RobotsTxt.build st k1, RobotsTxt.build st k2, ?_, ?_, rfl, rfl, ?_⟩
  · simp only [RobotsTxt.parseWithKeys, hst]
  · simp only [RobotsTxt.parseWithKeys, hst]
  · have hmem12 : ∀ y : Str, y ∈ k1 ↔ y ∈ k2 := fun y => by
      rw [hp1.mem_iff, hp2.mem_iff]
    have hb1 : (RobotsTxt.build st k1).agents_ordered = sortLenDesc k1 := rfl
    have hb2 : (RobotsTxt.build st k2).agents_ordered = sortLenDesc k2 := rfl
    cases h1 : (sortLenDesc k1).find? (fun pattern => match_pattern pattern ua) with
    | none =>
      have h2 : (sortLenDesc k2).find? (fun pattern => match_pattern pattern ua)
          = none := by
        rw [List.find?_eq_none] at h1 ⊢
        intro x hx
        exact h1 x (mem_sortLenDesc.mpr
          ((hmem12 x).mpr (mem_sortLenDesc.mp hx)))
      simp only [RobotsTxt.is_allowed, RobotsTxt.get_agent_rules,
        RobotsTxt.find_matching_agent, hb1, hb2, h1, h2]
    | some x1 =>
      obtain ⟨hqx1, hx1mem, hmax1⟩ :=
        find?_pairwise_max (sortLenDesc_pairwise k1) h1
      have hx1k1 : x1 ∈ k1 := mem_sortLenDesc.mp hx1mem
      cases h2 : (sortLenDesc k2).find? (fun pattern => match_pattern pattern ua) with
      | none =>
        exfalso
        rw [List.find?_eq_none] at h2
        exact h2 x1 (mem_sortLenDesc.mpr ((hmem12 x1).mp hx1k1)) hqx1
      | some x2 =>
        obtain ⟨hqx2, hx2mem, hmax2⟩ :=
          find?_pairwise_max (sortLenDesc_pairwise k2) h2
        have hx2k1 : x2 ∈ k1 := (hmem12 x2).mpr (mem_sortLenDesc.mp hx2mem)
        have hle1 : utf8Len x1 ≤ utf8Len x2 :=
          hmax2 x1 (mem_sortLenDesc.mpr ((hmem12 x1).mp hx1k1)) hqx1
        have hle2 : utf8Len x2 ≤ utf8Len x1 :=
          hmax1 x2 (mem_sortLenDesc.mpr hx2k1) hqx2
        have hx12 : x1 = x2 :=
          huniq x1 x2 hx1k1 hx2k1 hqx1 hqx2 (le_antisymm hle2 hle1).symm
        subst hx12
        simp only [RobotsTxt.is_allowed, RobotsTxt.get_agent_rules,
          RobotsTxt.find_matching_agent, hb1, hb2, h1, h2]
        rfl

/-- Single-agent file for the C9 witness. -/
def c9wFile : Str := "User-agent: Kirby\nDisallow: /priv".data

/-- Scan state of `c9wFile`. -/
def c9wSt : ParseState :=
  { current_agent := some ("Kirby".data),
    rules := [("Kirby".data, { allow := [], disallow := ["/priv".data] })],
    sitemaps := [] }

/-- The single key enumeration of `c9wFile`. -/
def c9wK : List Str := ["Kirby".data]

/-- User-agent of the C9 witness. -/
def c9wUa : Str := "Kirby".data

/-- Path of the C9 witness. -/
def c9wPath : Str := "/p".data

/-- Witness for the amended C9 at a single-agent file. -/
theorem c9_witness :
    ∃ t1 t2, RobotsTxt.parseWithKeys c9wFile c9wK = .ok t1
      ∧ RobotsTxt.parseWithKeys c9wFile c9wK = .ok t2
      ∧ t1.rules = t2.rules ∧ t1.sitemaps = t2.sitemaps
      ∧ t1.is_allowed c9wUa c9wPath = t2.is_allowed c9wUa c9wPath :=
  c9_deterministic_up_to_key_order c9wFile c9wK c9wK c9wSt (by decide)
    (by decide) (by decide) c9wUa c9wPath
    (fun p1 p2 h1 h2 _ _ _ => by
      simp only [c9wK, List.mem_singleton] at h1 h2
      rw [h1, h2])

/-- A value predicate survives an entry update when it holds for the
updated old value and for a freshly created entry. -/
theorem updateRule_forall (rs : List (Str × RobotsTxtRule)) (a : Str)
    (f : RobotsTxtRule → RobotsTxtRule) (P : RobotsTxtRule → Prop)
    (hall : ∀ p ∈ rs, P p.2) (hnew : P (f emptyRule))
    (hupd : ∀ r, P r → P (f r)) :
    ∀ p ∈ updateRule rs a f, P p.2 := by
  induction rs with
  | nil =>
    intro p hp
    simp only [updateRule, List.mem_singleton] at hp
    rw [hp]
    exact hnew
  | cons q rest ih =>
    rcases q with ⟨k, r⟩
    intro p hp
    simp only [updateRule] at hp
    by_cases hk : k = a
    · rw [if_pos hk] at hp
      cases hp with
      | head => exact hupd r (hall (k, r) (List.mem_cons_self _ _))
      | tail _ hp => exact hall p (List.mem_cons_of_mem _ hp)
    · rw [if_neg hk] at hp
      cases hp with
      | head => exact hall (k, r) (List.mem_cons_self _ _)
      | tail _ hp =>
        exact ih (fun x hx => hall x (List.mem_cons_of_mem _ hx)) p hp

/-- Every rule record in the scan state keeps at least one recorded
pattern, across one loop iteration. -/
theorem processLine_nonempty (st : ParseState) (l : Str) (st1 : ParseState)
    (h : processLine st l = .ok st1)
    (hall : ∀ p ∈ st.rules, p.2.allow ≠ [] ∨ p.2.disallow ≠ []) :
    ∀ p ∈ st1.rules, p.2.allow ≠ [] ∨ p.2.disallow ≠ [] := by
  rcases processLine_cases st l st1 h with
    hc | ⟨ag, hc⟩ | ⟨agent, v, hcur, hv, hc | hc⟩ | ⟨v, hc⟩
  · rw [hc]
    exact hall
  · rw [hc]
    exact hall
  · rw [hc]
    exact updateRule_forall st.rules agent (pushAllow v)
      (fun r => r.allow ≠ [] ∨ r.disallow ≠ []) hall
      (Or.inl (by simp [pushAllow, emptyRule]))
      (fun r _ => Or.inl (by simp [pushAllow]))
  · rw [hc]
    exact updateRule_forall st.rules agent (pushDisallow v)
      (fun r => r.allow ≠ [] ∨ r.disallow ≠ []) hall
      (Or.inr (by simp [pushDisallow, emptyRule]))
      (fun r _ => Or.inr (by simp [pushDisallow]))
  · rw [hc]
    exact hall

/-- Every rule record in the scan state keeps at least one recorded
pattern, across the whole scan. -/
theorem processLines_nonempty (ls : List Str) : ∀ st st1 : ParseState,
    processLines st ls = .ok st1 →
    (∀ p ∈ st.rules, p.2.allow ≠ [] ∨ p.2.disallow ≠ []) →
    ∀ p ∈ st1.rules, p.2.allow ≠ [] ∨ p.2.disallow ≠ [] := by
  induction ls with
  | nil =>
    intro st st1 h hall
    simp only [processLines] at h
    cases h
    exact hall
  | cons l ls ih =>
    intro st st1 h hall
    simp only [processLines] at h
    cases hpl : processLine st l with
    | error e =>
      simp only [hpl] at h
      cases h
    | ok st2 =>
      simp only [hpl] at h
      exact ih st2 st1 h (processLine_nonempty st l st2 hpl hall)

/-- A rule-map entry is created during one iteration only by a non-empty
allow or disallow push under the current agent. -/
theorem processLine_creates (st : ParseState) (l : Str) (st1 : ParseState)
    (a : Str) (h : processLine st l = .ok st1)
    (h0 : lookupRule st.rules a = none)
    (h1 : (lookupRule st1.rules a).isSome = true) :
    st.current_agent = some a ∧ ∃ v, v ≠ [] ∧
      (st1 = { st with rules := updateRule st.rules a (pushAllow v) } ∨
       st1 = { st with rules := updateRule st.rules a (pushDisallow v) }) := by
  rcases processLine_cases st l st1 h with
    hc | ⟨ag, hc⟩ | ⟨agent, v, hcur, hv, hc | hc⟩ | ⟨v, hc⟩
  · rw [hc] at h1
    rw [h0] at h1
    simp at h1
  · rw [hc] at h1
    rw [show ({ st with current_agent := some ag } : ParseState).rules
        = st.rules from rfl, h0] at h1
    simp at h1
  · by_cases hak : a = agent
    · subst hak
      exact ⟨hcur, v, hv, Or.inl hc⟩
    · exfalso
      rw [hc] at h1
      rw [show ({ st with rules := updateRule st.rules agent (pushAllow v) }
          : ParseState).rules = updateRule st.rules agent (pushAllow v) from rfl,
        lookupRule_updateRule_ne _ _ _ _ hak, h0] at h1
      simp at h1
  · by_cases hak : a = agent
    · subst hak
      exact ⟨hcur, v, hv, Or.inr hc⟩
    · exfalso
      rw [hc] at h1
      rw [show ({ st with rules := updateRule st.rules agent (pushDisallow v) }
          : ParseState).rules = updateRule st.rules agent (pushDisallow v) from rfl,
        lookupRule_updateRule_ne _ _ _ _ hak, h0] at h1
      simp at h1
  · rw [hc] at h1
    rw [show ({ st with sitemaps := st.sitemaps ++ [v] } : ParseState).rules
        = st.rules from rfl, h0] at h1
    simp at h1

/-- Demo file for C10: agent `Ghost` is declared but never receives a
directive; agent `A` receives one. -/
def c10file : Str := "User-agent: Ghost\nUser-agent: A\nDisallow: /x".data

/-- The directive-less agent of `c10file`. -/
def ghostKey : Str := "Ghost".data

/-- The governed agent of `c10file`. -/
def c10aKey : Str := "A".data

/-- C10: every parsed rule record holds at least one recorded pattern, the
rule map and the agent index have exactly the same keys, a rule-map entry
can be created only by a non-empty allow or disallow push under the current
agent, and on the demo file the directive-less agent gets no entry. -/
theorem c10_entry_iff_recorded (file : Str) (r : RobotsTxt)
    (h : RobotsTxt.parse file = .ok r) :
    (∀ p ∈ r.rules, p.2.allow ≠ [] ∨ p.2.disallow ≠ [])
    ∧ (∀ a, (lookupRule r.rules a).isSome = true ↔ a ∈ r.agents_ordered)
    ∧ (∀ (st2 : ParseState) (l : Str) (st3 : ParseState) (a : Str),
        processLine st2 l = .ok st3 →
        lookupRule st2.rules a = none →
        (lookupRule st3.rules a).isSome = true →
        st2.current_agent = some a ∧ ∃ v, v ≠ [] ∧
          (st3 = { st2 with rules := updateRule st2.rules a (pushAllow v) } ∨
           st3 = { st2 with rules := updateRule st2.rules a (pushDisallow v) }))
    ∧ (RobotsTxt.parse c10file).map
        (fun t => (lookupRule t.rules ghostKey, t.agents_ordered))
        = .ok (none, [c10aKey]) := by
  rcases parse_ok_elim file r h with ⟨st, hst, hb⟩
  have hrules : r.rules = st.rules.map (fun p => (p.1, sortRule p.2)) := by
    rw [hb]
    rfl
  have hagents : r.agents_ordered = sortLenDesc (st.rules.map Prod.fst) := by
    rw [hb]
    rfl
  have hinv : ∀ p ∈ st.rules, p.2.allow ≠ [] ∨ p.2.disallow ≠ [] :=
    processLines_nonempty (linesOf file) initState st hst
      (by intro p hp; simp [initState] at hp)
  refine ⟨?_, ?_, ?_, by decide⟩
  · intro p hp
    rw [hrules] at hp
    rcases List.mem_map.mp hp with ⟨q, hq, hpq⟩
    rw [← hpq]
    have hlen := sortLenDesc_perm q.2.allow
    have hlend := sortLenDesc_perm q.2.disallow
    rcases hinv q hq with hne | hne
    · exact Or.inl (by
        simp only [sortRule]
        intro hnil
        exact hne (List.eq_nil_of_length_eq_zero
          (by rw [← hlen.length_eq, hnil]; rfl)))
    · exact Or.inr (by
        simp only [sortRule]
        intro hnil
        exact hne (List.eq_nil_of_length_eq_zero
          (by rw [← hlend.length_eq, hnil]; rfl)))
  · intro a
    rw [hrules, hagents, lookupRule_map_sortRule]
    have h1 : ((lookupRule st.rules a).map sortRule).isSome
        = (lookupRule st.rules a).isSome := by
      cases lookupRule st.rules a with
      | none => rfl
      | some ru => rfl
    rw [h1, lookupRule_isSome_iff]
    exact ⟨fun hm => mem_sortLenDesc.mpr hm, fun hm => mem_sortLenDesc.mp hm⟩
  · intro st2 l st3 a hpl h0 h1
    exact processLine_creates st2 l st3 a hpl h0 h1

/-- Expected parse of `c10file`. -/
def c10r : RobotsTxt :=
  { rules := [("A".data, { allow := [], disallow := ["/x".data] })],
    sitemaps := [],
    agents_ordered := ["A".data] }

/-- Witness for C10 on the demo file. -/
theorem c10_witness :
    RobotsTxt.parse c10file = .ok c10r
    ∧ ((∀ p ∈ c10r.rules, p.2.allow ≠ [] ∨ p.2.disallow ≠ [])
        ∧ (∀ a, (lookupRule c10r.rules a).isSome = true ↔ a ∈ c10r.agents_ordered)
        ∧ (∀ (st2 : ParseState) (l : Str) (st3 : ParseState) (a : Str),
            processLine st2 l = .ok st3 →
            lookupRule st2.rules a = none →
            (lookupRule st3.rules a).isSome = true →
            st2.current_agent = some a ∧ ∃ v, v ≠ [] ∧
              (st3 = { st2 with rules := updateRule st2.rules a (pushAllow v) } ∨
               st3 = { st2 with rules := updateRule st2.rules a (pushDisallow v) }))
        ∧ (RobotsTxt.parse c10file).map
            (fun t => (lookupRule t.rules ghostKey, t.agents_ordered))
            = .ok (none, [c10aKey])) :=
  ⟨by decide, c10_entry_iff_recorded c10file c10r (by decide)⟩

/-- Input on which the Rust parser panics: eleven ASCII characters followed
by a two-byte character, so the line is 13 bytes long and byte offset 12
(the length of `user-agent: `) falls inside the final character; the Rust
slice `s[..prefix.len()]` in `strip_prefix` is out of char-boundary there. -/
def c1file : Str := "aaaaaaaaaaaé".data

/-- Binary-garbage input without any recognizable directive. -/
def c1garbage : Str := "\x00\x01garbage\x11\x7f".data

/-- C1: parsing is total on empty and ASCII-garbage input, but the panic
modelled by `.error ()` is reachable: on `c1file` the byte-indexed prefix
slice of `strip_prefix` falls inside a multi-byte character and the Rust
code panics instead of returning a `RuleSet`. -/
theorem c1_totality_fails :
    RobotsTxt.parse ("".data)
      = .ok { rules := [], sitemaps := [], agents_ordered := [] }
    ∧ RobotsTxt.parse c1garbage
      = .ok { rules := [], sitemaps := [], agents_ordered := [] }
    ∧ RobotsTxt.parse c1file = .error () := by
  refine ⟨by decide, by decide, by decide⟩
